import Mathlib

/-! LowRISC keyboard front-ends

A shallow embedding of the two polled keyboard drivers of the repository,
`drivers/input/keyboard/lowrisc-fake-keys.c` (serial bytes turned into key taps)
and `drivers/input/keyboard/lowrisc-kbd.c` (PS/2 scancodes), together with the
properties of their poll routines, and of the cell write and the scroll of the
text console `drivers/video/console/lowrisc-con.c`.

Machine words are natural numbers reduced modulo the width of their C type.
The memory-mapped device is a parameter: a state type with a load and a store
function.  A poll returns the device state it leaves behind and the ordered
list of everything it did (register accesses, key reports, traces).
-/

namespace LowRisc

/-! ## Observable actions and the device interface -/

/-- One observable step of a poll routine.  Addresses are byte offsets from the
mapped base of the device. -/
inductive Act where
  /-- A volatile load from `addr` that returned `val`. -/
  | read (addr : Nat) (val : Nat)
  /-- A volatile store of `val` to `addr`. -/
  | write (addr : Nat) (val : Nat)
  /-- The call `input_report_key(input, code, value)`; `pressed` is `value != 0`. -/
  | key (code : Nat) (pressed : Bool)
  /-- The call `input_sync(input)`. -/
  | sync
  /-- The `printk` of the fake keyboard for a character it cannot translate. -/
  | printk (ch : Nat)
  /-- The `pr_debug` of the scancode driver, with the glyph it prints. -/
  | pr_debug (glyph : Nat)
  /-- A load from the scancode array at an index past its end.  C defines no
  behaviour from here on, so a trace stops at this action. -/
  | oob (index : Nat)
  deriving DecidableEq, Repr

/-- A key event as the input core receives it. -/
structure KeyEvent where
  code : Nat
  pressed : Bool
  deriving DecidableEq, Repr

/-- Key-down event of `code`. -/
def press (code : Nat) : KeyEvent := ⟨code, true⟩

/-- Key-up event of `code`. -/
def release (code : Nat) : KeyEvent := ⟨code, false⟩

/-- The key events of a trace, in order. -/
def keyEvents : List Act → List KeyEvent
  | [] => []
  | Act.key c p :: t => ⟨c, p⟩ :: keyEvents t
  | _ :: t => keyEvents t

/-- The register accesses of a trace, in order. -/
def mmio : List Act → List Act
  | [] => []
  | Act.read a v :: t => Act.read a v :: mmio t
  | Act.write a v :: t => Act.write a v :: mmio t
  | _ :: t => mmio t

/-- The register writes of a trace, in order. -/
def writes : List Act → List Act
  | [] => []
  | Act.write a v :: t => Act.write a v :: writes t
  | _ :: t => writes t

/-- A memory-mapped device: what a volatile load of a byte offset returns in a
given state, and the state a volatile store leads to.  Loads do not change the
state; the drivers pop the FIFO by a store. -/
structure Mmio (σ : Type) where
  load : σ → Nat → Nat
  store : σ → Nat → Nat → σ

/-- The C operator `~` on a 32-bit word (the bit pattern of an `int` or of a
`uint32_t`). -/
def not32 (x : Nat) : Nat := 2 ^ 32 - 1 - x % 2 ^ 32

/-- A device for concrete runs: its state is the list of words the coming loads
return, every store (at any offset) drops the first word, and an exhausted
list reads as the bare empty flag `0x200`. -/
def replay : Mmio (List Nat) where
  load := fun s _ => s.headD 0x200
  store := fun s _ _ => s.tail

/-! ## drivers/input/keyboard/lowrisc-fake-keys.c -/

namespace FakeKeys

/-- Key code of the left control key (`lctrl` of the `enum`). -/
def lctrl : Nat := 0x1d

/-- Key code of the left shift key (`lshift` of the `enum`). -/
def lshift : Nat := 0x2a

/-- The function `upper`: 1 for `A..Z` and for the listed symbols, else 0. -/
def upper (ch : Nat) : Nat :=
  if 0x41 ≤ ch ∧ ch ≤ 0x5a then 1   -- ch >= A && ch <= Z
  else if ch = 0x21 then 1          -- !
  else if ch = 0x22 then 1          -- double quote
  else if ch = 0x23 then 1          -- #
  else if ch = 0x24 then 1          -- $
  else if ch = 0x25 then 1          -- %
  else if ch = 0x5e then 1          -- ^
  else if ch = 0x26 then 1          -- &
  else if ch = 0x2a then 1          -- *
  else if ch = 0x3c then 1          -- <
  else if ch = 0x3e then 1          -- >
  else if ch = 0x7e then 1          -- ~
  else if ch = 0x40 then 1          -- @
  else if ch = 0x2b then 1          -- +
  else if ch = 0x5f then 1          -- _
  else if ch = 0x28 then 1          -- (
  else if ch = 0x29 then 1          -- )
  else if ch = 0x7b then 1          -- left brace
  else if ch = 0x7d then 1          -- right brace
  else if ch = 0x7c then 1          -- |
  else if ch = 0x3a then 1          -- :
  else if ch = 0x3f then 1          -- ?
  else 0

/-- The `switch (ch)` of `lowrisc_keys_poll`: `some c` when a `case` label
matches and assigns `c`, `none` when control reaches `default:`. -/
def keycode (ch : Nat) : Option Nat :=
  if ch = 0x1b then some 0x01                      -- ESC
  else if ch = 0x31 ∨ ch = 0x21 then some 0x02     -- 1 !
  else if ch = 0x32 ∨ ch = 0x40 then some 0x03     -- 2 @
  else if ch = 0x33 ∨ ch = 0x23 then some 0x04     -- 3 #
  else if ch = 0x34 ∨ ch = 0x24 then some 0x05     -- 4 $
  else if ch = 0x35 ∨ ch = 0x25 then some 0x06     -- 5 %
  else if ch = 0x36 ∨ ch = 0x5e then some 0x07     -- 6 ^
  else if ch = 0x37 ∨ ch = 0x26 then some 0x08     -- 7 &
  else if ch = 0x38 ∨ ch = 0x2a then some 0x09     -- 8 *
  else if ch = 0x39 ∨ ch = 0x28 then some 0x0a     -- 9 (
  else if ch = 0x30 ∨ ch = 0x29 then some 0x0b     -- 0 )
  else if ch = 0x2d ∨ ch = 0x5f then some 0x0c     -- - _
  else if ch = 0x3d ∨ ch = 0x2b then some 0x0d     -- = +
  else if ch = 0x7f then some 0x0e                 -- DEL
  else if ch = 0x09 then some 0x0f                 -- tab
  else if ch = 0x51 ∨ ch = 0x71 then some 0x10     -- Q q
  else if ch = 0x57 ∨ ch = 0x77 then some 0x11     -- W w
  else if ch = 0x45 ∨ ch = 0x65 then some 0x12     -- E e
  else if ch = 0x52 ∨ ch = 0x72 then some 0x13     -- R r
  else if ch = 0x54 ∨ ch = 0x74 then some 0x14     -- T t
  else if ch = 0x59 ∨ ch = 0x79 then some 0x15     -- Y y
  else if ch = 0x55 ∨ ch = 0x75 then some 0x16     -- U u
  else if ch = 0x49 ∨ ch = 0x69 then some 0x17     -- I i
  else if ch = 0x4f ∨ ch = 0x6f then some 0x18     -- O o
  else if ch = 0x50 ∨ ch = 0x70 then some 0x19     -- P p
  else if ch = 0x5b ∨ ch = 0x7b then some 0x1a     -- [ left brace
  else if ch = 0x5d ∨ ch = 0x7d then some 0x1b     -- ] right brace
  else if ch = 0x0d then some 0x1c                 -- carriage return
  else if ch = 0x41 ∨ ch = 0x61 then some 0x1e     -- A a
  else if ch = 0x53 ∨ ch = 0x73 then some 0x1f     -- S s
  else if ch = 0x44 ∨ ch = 0x64 then some 0x20     -- D d
  else if ch = 0x46 ∨ ch = 0x66 then some 0x21     -- F f
  else if ch = 0x47 ∨ ch = 0x67 then some 0x22     -- G g
  else if ch = 0x48 ∨ ch = 0x68 then some 0x23     -- H h
  else if ch = 0x4a ∨ ch = 0x6a then some 0x24     -- J j
  else if ch = 0x4b ∨ ch = 0x6b then some 0x25     -- K k
  else if ch = 0x4c ∨ ch = 0x6c then some 0x26     -- L l
  else if ch = 0x3b ∨ ch = 0x3a then some 0x27     -- ; :
  else if ch = 0x27 ∨ ch = 0x22 then some 0x28     -- quote, double quote
  else if ch = 0x60 ∨ ch = 0x7e then some 0x29     -- backquote ~
  else if ch = 0x5c ∨ ch = 0x7c then some 0x2b     -- backslash |
  else if ch = 0x5a ∨ ch = 0x7a then some 0x2c     -- Z z
  else if ch = 0x58 ∨ ch = 0x78 then some 0x2d     -- X x
  else if ch = 0x43 ∨ ch = 0x63 then some 0x2e     -- C c
  else if ch = 0x56 ∨ ch = 0x76 then some 0x2f     -- V v
  else if ch = 0x42 ∨ ch = 0x62 then some 0x30     -- B b
  else if ch = 0x4e ∨ ch = 0x6e then some 0x31     -- N n
  else if ch = 0x4d ∨ ch = 0x6d then some 0x32     -- M m
  else if ch = 0x2c ∨ ch = 0x3c then some 0x33     -- , <
  else if ch = 0x2e ∨ ch = 0x3e then some 0x34     -- . >
  else if ch = 0x2f ∨ ch = 0x3f then some 0x35     -- / ?
  else if ch = 0x20 then some 0x39                 -- space
  else none                                        -- default

/-- The body of `lowrisc_keys_poll` from `ctrl = ch >= 1 && ch <= 26` up to
`input_sync(input)`, for the masked character `ch0 = *rx & 0x7f`. -/
def decode_emit (ch0 : Nat) : List Act :=
  let ctrl : Bool := decide (1 ≤ ch0 ∧ ch0 ≤ 26)
  -- if (ctrl) { input_report_key(input, lctrl, 1); ch = ch + a - 1; }
  let t1 : List Act := if ctrl then [Act.key lctrl true] else []
  let ch : Nat := if ctrl then ch0 + 0x61 - 1 else ch0
  -- switch (ch) { ... default: c = 0; printk(...); }
  let c : Nat := match keycode ch with
    | some k => k
    | none => 0
  let t2 : List Act := match keycode ch with
    | some _ => []
    | none => [Act.printk ch]
  -- if (upper(ch)) input_report_key(input, lshift, 1);
  let t3 : List Act := if upper ch ≠ 0 then [Act.key lshift true] else []
  -- input_report_key(input, c, 1); input_report_key(input, c, 0);
  let t4 : List Act := [Act.key c true, Act.key c false]
  -- if (ctrl) input_report_key(input, lctrl, 0);
  let t5 : List Act := if ctrl then [Act.key lctrl false] else []
  -- if (upper(ch)) input_report_key(input, lshift, 0);
  let t6 : List Act := if upper ch ≠ 0 then [Act.key lshift false] else []
  t1 ++ t2 ++ t3 ++ t4 ++ t5 ++ t6 ++ [Act.sync]

/-- The function `lowrisc_keys_poll` of the fake keyboard.  `rx` points to
64-bit words, so `*rx` is byte offset 0 and `rx[0x200]` is byte offset
`8 * 0x200`; `int ch = *rx` keeps the low 32 bits of the word read. -/
def lowrisc_keys_poll {σ : Type} (hw : Mmio σ) (s : σ) : σ × List Act :=
  let w0 := hw.load s 0 % 2 ^ 64
  let ch := w0 % 2 ^ 32
  if 0x200 &&& not32 ch ≠ 0 then
    let s1 := hw.store s (8 * 0x200) 0          -- rx[0x200] = 0; pop FIFO
    let w1 := hw.load s1 0 % 2 ^ 64
    let ch := w1 &&& 0x7f                       -- ch = *rx & 0x7f;
    (s1, [Act.read 0 w0, Act.write (8 * 0x200) 0, Act.read 0 w1] ++ decode_emit ch)
  else
    (s, [Act.read 0 w0])

/-- The routine run `n` times in a row on the same device, as the polling
infrastructure does; the traces are concatenated. -/
def polls {σ : Type} (hw : Mmio σ) : Nat → σ → σ × List Act
  | 0, s => (s, [])
  | n + 1, s =>
    let r := lowrisc_keys_poll hw s
    let r2 := polls hw n r.1
    (r2.1, r.2 ++ r2.2)

/-- The value of the local `ctrl` for the masked character `ch0`. -/
def ctrl (ch0 : Nat) : Bool := decide (1 ≤ ch0 ∧ ch0 ≤ 26)

/-- The value of `ch` after the `if (ctrl)` block: a control character is
replaced by its lowercase letter, `ch + a - 1`. -/
def remapped (ch0 : Nat) : Nat := if ctrl ch0 then ch0 + 0x61 - 1 else ch0

/-- The value of `c` after the `switch`, for the masked character `ch0`. -/
def primary (ch0 : Nat) : Nat :=
  match keycode (remapped ch0) with
  | some k => k
  | none => 0

/-- Whether the two `if (upper(ch))` tests succeed for the masked character
`ch0`; they run after the remapping of `ch`. -/
def shift (ch0 : Nat) : Bool := decide (upper (remapped ch0) ≠ 0)

end FakeKeys

/-! ## drivers/input/keyboard/lowrisc-kbd.c -/

namespace Kbd

/-- One element of the array `scancode[]`: `struct { char scan,lwr,upr; }`.
The array itself comes from `lowrisc-scancode.h` and is a parameter of the poll
routine. -/
structure ScanEntry where
  scan : Nat
  lwr : Nat
  upr : Nat
  deriving DecidableEq, Repr

/-- The function `lowrisc_keys_poll` of the scancode keyboard.  `keyb_base`
points to 32-bit words and every access is to `*keyb_base`, byte offset 0.
`c` is an `unsigned char`, hence the reduction modulo 256. -/
def lowrisc_keys_poll {σ : Type} (scancode : List ScanEntry) (hw : Mmio σ) (s : σ) :
    σ × List Act :=
  let key0 := hw.load s 0 % 2 ^ 32               -- uint32_t key = *keyb_base;
  if (1 <<< 9) &&& not32 key0 ≠ 0 then
    let s1 := hw.store s 0 0                     -- *keyb_base = 0; bump FIFO location
    let w1 := hw.load s1 0 % 2 ^ 32
    let key := w1 &&& not32 0x200                -- key = *keyb_base & ~0x200;
    let pre : List Act := [Act.read 0 key0, Act.write 0 0, Act.read 0 w1]
    match scancode[key &&& not32 0x100]? with    -- scancode[key&~0x100]
    | none => (s1, pre ++ [Act.oob (key &&& not32 0x100)])
    | some e =>
      let c := e.scan % 256                      -- c = scancode[key&~0x100].scan;
      -- if (c != 0x3A) { input_report_key(input, c, key & 0x100 ? 0 : 1); input_sync(input); }
      let value : Nat := if key &&& 0x100 ≠ 0 then 0 else 1
      let t1 : List Act := if c ≠ 0x3A then [Act.key c (decide (value ≠ 0)), Act.sync] else []
      -- pr_debug("input event key %c\n", scancode[key&~0x100].lwr);
      (s1, pre ++ t1 ++ [Act.pr_debug e.lwr])
  else
    (s, [Act.read 0 key0])

/-- The routine run `n` times in a row on the same device, as the polling
infrastructure does; the traces are concatenated. -/
def polls {σ : Type} (scancode : List ScanEntry) (hw : Mmio σ) : Nat → σ → σ × List Act
  | 0, s => (s, [])
  | n + 1, s =>
    let r := lowrisc_keys_poll scancode hw s
    let r2 := polls scancode hw n r.1
    (r2.1, r.2 ++ r2.2)

/-- The array index `key&~0x100` the routine uses for the data word `w`, where
`key = w & ~0x200` as a `uint32_t`. -/
def index (w : Nat) : Nat := (w % 2 ^ 32 &&& not32 0x200) &&& not32 0x100

/-- A table for concrete runs, one entry per 8-bit raw code: raw code 0x1c
gives standard code 0x1e (glyphs a, A), raw code 0x58 gives the caps-lock code
0x3a, every other raw code gives standard code 0 with the glyph `?`.  It
stands in for the contents of `lowrisc-scancode.h`. -/
def sample : List ScanEntry :=
  (List.range 256).map fun i =>
    if i = 0x1c then ⟨0x1e, 0x61, 0x41⟩
    else if i = 0x58 then ⟨0x3a, 0x3f, 0x3f⟩
    else ⟨0, 0x3f, 0x3f⟩

end Kbd

/-! ## drivers/video/console/lowrisc-con.c -/

namespace Con

/-- Number of 16-bit cells of the text memory (`#define LOWRISC_MEM 4096`). -/
def LOWRISC_MEM : Nat := 4096

/-- Cells per row (`#define LOWRISC_COLUMNS 128`). -/
def LOWRISC_COLUMNS : Nat := 128

/-- Rows of the console (`#define LOWRISC_ROWS 31`). -/
def LOWRISC_ROWS : Nat := 31

/-- The value of an `int` expression: the mathematical result wrapped to 32
bits, two's complement (the kernel is built with wrapping signed arithmetic). -/
def int32 (z : Int) : Int := (z + 2147483648) % 4294967296 - 2147483648

/-- What the console routines do besides changing the text memory. -/
inductive Event where
  /-- The `printk("out of range scroll move ...")` of `mymove`. -/
  | printk_move (dest : Int)
  /-- The `printk("out of range scroll set ...")` of `myset`. -/
  | printk_set (dest : Int)
  /-- The call `lowrisc_shadow_console_putchar(ch)`. -/
  | shadow (ch : Int)
  /-- A store to `hid_vga_ptr[index]` with `index` outside the `LOWRISC_MEM`
  cells of the text memory.  C defines no behaviour from here on, so a trace
  stops at this event. -/
  | oob (index : Int)
  deriving DecidableEq, Repr

/-- The directions of `enum con_scroll`. -/
inductive con_scroll where
  | SM_UP
  | SM_DOWN
  deriving DecidableEq, Repr

/-- The file-scope state of the driver: the text memory behind `hid_vga_ptr`
(cell `i` for `i < LOWRISC_MEM`, a `uint16_t` each) and the statics `oldxpos`
and `oldypos`. -/
structure State where
  mem : Nat → Nat
  oldxpos : Int
  oldypos : Int

/-- The library call `memmove(dest, src, n*sizeof(u16))` in units of cells: the
`n` cells from `dest` on receive the former contents of the `n` cells from
`src` on, also when the two ranges overlap. -/
def memmove (mem : Nat → Nat) (dest src n : Nat) : Nat → Nat :=
  fun i => if dest ≤ i ∧ i < dest + n then mem (src + (i - dest)) else mem i

/-- The library call `memset(dest, c, n)`: the `n` BYTES from the first byte of
cell `dest` on are set to `(unsigned char)c`.  Cell `i` consists of the bytes
`2*i` (low) and `2*i+1` (high) of the text memory (little endian). -/
def memset (mem : Nat → Nat) (dest : Nat) (c : Int) (n : Nat) : Nat → Nat :=
  fun i =>
    let b : Nat := (c % 256).toNat
    let inLo : Bool := decide (2 * dest ≤ 2 * i ∧ 2 * i < 2 * dest + n)
    let inHi : Bool := decide (2 * dest ≤ 2 * i + 1 ∧ 2 * i + 1 < 2 * dest + n)
    if inLo || inHi then
      (if inLo then b else mem i % 256) + 256 * (if inHi then b else mem i / 256 % 256)
    else mem i

/-- The function `mymove`; `dest` and `src` are the cell offsets of the two
pointers from `hid_vga_ptr`. -/
def mymove (mem : Nat → Nat) (dest src : Int) (n : Nat) : (Nat → Nat) × List Event :=
  if dest < 0 ∨ dest + n > LOWRISC_MEM ∨ src < 0 ∨ src + n > LOWRISC_MEM then
    (mem, [Event.printk_move dest])
  else
    (memmove mem dest.toNat src.toNat n, [])

/-- The function `myset`; `dest` is the cell offset of the pointer from
`hid_vga_ptr`. -/
def myset (mem : Nat → Nat) (dest : Int) (c : Int) (n : Nat) : (Nat → Nat) × List Event :=
  if dest < 0 ∨ dest + n > LOWRISC_MEM then
    (mem, [Event.printk_set dest])
  else
    (memset mem dest.toNat c n, [])

/-- The function `lowrisc_con_putc`.  `config_keyboard` tells whether
`CONFIG_KEYBOARD_LOWRISC` is defined.  The store `hid_vga_ptr[128*ypos+xpos] = c`
keeps the low 16 bits of `c`; the routine does not compare `ypos` or `xpos`
with anything before it. -/
def lowrisc_con_putc (config_keyboard : Bool) (st : State) (c ypos xpos : Int) :
    State × List Event :=
  let idx : Int := int32 (int32 (LOWRISC_COLUMNS * ypos) + xpos)
  if 0 ≤ idx ∧ idx < LOWRISC_MEM then
    -- hid_vga_ptr[LOWRISC_COLUMNS*ypos+xpos] = c;
    let mem1 : Nat → Nat := fun i => if i = idx.toNat then (c % 65536).toNat else st.mem i
    if config_keyboard then
      let t1 : List Event :=
        if xpos = st.oldxpos then [Event.shadow 8]                       -- backspace
        else if xpos < st.oldxpos then [Event.shadow 13]                 -- carriage return
        else if xpos > int32 (st.oldxpos + 1) then [Event.shadow 32]     -- space
        else []
      let t2 : List Event := if ypos > st.oldypos then [Event.shadow 10] else []  -- newline
      let t3 : List Event := [Event.shadow c]
      if xpos = st.oldxpos then
        ({ mem := mem1, oldxpos := int32 (xpos - 1), oldypos := ypos },
          t1 ++ t2 ++ t3 ++ [Event.shadow 8])
      else
        ({ mem := mem1, oldxpos := xpos, oldypos := ypos }, t1 ++ t2 ++ t3)
    else
      ({ st with mem := mem1 }, [])
  else
    (st, [Event.oob idx])

/-- The function `lowrisc_con_scroll`, the branch after `#else` (the branch
under `#if 0` is not compiled, so `top`, `bottom`, `dir` and `lines` are not
looked at).  The result is the new state, the trace and the value returned. -/
def lowrisc_con_scroll (st : State) (_top _bottom : Nat) (_dir : con_scroll) (_lines : Nat) :
    State × List Event × Bool :=
  let oldypos := int32 (st.oldypos - 1)                                   -- oldypos--;
  -- mymove(hid_vga_ptr, hid_vga_ptr+LOWRISC_COLUMNS, LOWRISC_MEM-LOWRISC_COLUMNS);
  let r1 := mymove st.mem 0 LOWRISC_COLUMNS (LOWRISC_MEM - LOWRISC_COLUMNS)
  -- myset(hid_vga_ptr+LOWRISC_MEM-LOWRISC_COLUMNS, 0, LOWRISC_COLUMNS);
  let r2 := myset r1.1 (LOWRISC_MEM - LOWRISC_COLUMNS : Nat) 0 LOWRISC_COLUMNS
  ({ mem := r2.1, oldxpos := st.oldxpos, oldypos := oldypos }, r1.2 ++ r2.2, true)

/-- A text memory for concrete runs: every cell is zero. -/
def blank : State := { mem := fun _ => 0, oldxpos := 0, oldypos := 0 }

/-- A text memory for concrete runs: cell `i` holds `i + 1`, so that no cell
is zero and no two cells are equal. -/
def numbered : State := { mem := fun i => i + 1, oldxpos := 0, oldypos := 0 }

end Con

/-! ## The specification's data model, in its own words -/

namespace Spec

/-- The record case of `TranslationResult` of the AsciiKeyTranslator. -/
structure Translation where
  control_modifier : Bool
  shift_modifier : Bool
  code : Nat
  deriving DecidableEq, Repr

/-- Standard code of the control key. -/
def CTRL : Nat := 0x1d

/-- Standard code of the shift key. -/
def SHIFT : Nat := 0x2a

/-- The contract of the KeyEventEmitter, step by step: press(CTRL) if
`control_modifier`, press(SHIFT) if `shift_modifier`, press(code),
release(code), release(CTRL) if `control_modifier`, release(SHIFT) if
`shift_modifier`. -/
def emit (t : Translation) : List KeyEvent :=
  (if t.control_modifier then [press CTRL] else [])
    ++ (if t.shift_modifier then [press SHIFT] else [])
    ++ [press t.code]
    ++ [release t.code]
    ++ (if t.control_modifier then [release CTRL] else [])
    ++ (if t.shift_modifier then [release SHIFT] else [])

/-- The fixed set of shifted punctuation symbols, as ASCII codes:
`! " # $ % ^ & * < > ~ @ + _ ( ) { } | : ?`. -/
def shiftedSymbols : List Nat :=
  [0x21, 0x22, 0x23, 0x24, 0x25, 0x5e, 0x26, 0x2a, 0x3c, 0x3e, 0x7e,
   0x40, 0x2b, 0x5f, 0x28, 0x29, 0x7b, 0x7d, 0x7c, 0x3a, 0x3f]

/-- An uppercase letter `A..Z`. -/
def isUpperLetter (o : Nat) : Prop := 0x41 ≤ o ∧ o ≤ 0x5a

/-- A lowercase letter `a..z`. -/
def isLowerLetter (o : Nat) : Prop := 0x61 ≤ o ∧ o ≤ 0x7a

/-- A digit `0..9`. -/
def isDigit (o : Nat) : Prop := 0x30 ≤ o ∧ o ≤ 0x39

/-- The punctuation keys typed without shift, as ASCII codes:
backquote, `-`, `=`, `[`, `]`, backslash, `;`, quote, `,`, `.`, `/`. -/
def unshiftedSymbols : List Nat :=
  [0x60, 0x2d, 0x3d, 0x5b, 0x5d, 0x5c, 0x3b, 0x27, 0x2c, 0x2e, 0x2f]

/-- The rule for `shift_modifier`: the character is an uppercase letter or one
of the shifted punctuation symbols. -/
def shifted (o : Nat) : Prop := isUpperLetter o ∨ o ∈ shiftedSymbols

instance (o : Nat) : Decidable (isUpperLetter o) := by unfold isUpperLetter; infer_instance
instance (o : Nat) : Decidable (isLowerLetter o) := by unfold isLowerLetter; infer_instance
instance (o : Nat) : Decidable (isDigit o) := by unfold isDigit; infer_instance
instance (o : Nat) : Decidable (shifted o) := by unfold shifted; infer_instance

end Spec

/-! ## Words and bits -/

theorem testBit_not32 (x i : Nat) :
    (not32 x).testBit i = (decide (i < 32) && !x.testBit i) := by
  unfold not32
  have h : x % 2 ^ 32 < 2 ^ 32 := Nat.mod_lt _ (by norm_num)
  rw [Nat.sub_sub, Nat.add_comm 1, Nat.testBit_two_pow_sub_succ h, Nat.testBit_mod_two_pow]
  cases x.testBit i <;> cases decide (i < 32) <;> rfl

theorem two_pow_and_ne_zero (k y : Nat) : 2 ^ k &&& y ≠ 0 ↔ y.testBit k = true := by
  constructor
  · intro h
    by_contra hb
    apply h
    apply Nat.eq_of_testBit_eq
    intro i
    rw [Nat.testBit_and, Nat.testBit_two_pow]
    by_cases hi : k = i
    · subst hi; simp at hb; simp [hb]
    · simp [hi]
  · intro hb h
    have := congrArg (fun z => Nat.testBit z k) h
    simp [Nat.testBit_and, hb, Nat.testBit_two_pow_self] at this

theorem and_two_pow_eq_zero (k x : Nat) : x &&& 2 ^ k = 0 ↔ x.testBit k = false := by
  rw [Nat.and_comm]
  have := two_pow_and_ne_zero k x
  constructor
  · intro h
    by_contra hb
    simp at hb
    exact (this.2 hb) h
  · intro hb
    by_contra h
    have := this.1 h
    simp [hb] at this

theorem bit9_and_ne_zero (y : Nat) : 0x200 &&& y ≠ 0 ↔ y.testBit 9 = true :=
  two_pow_and_ne_zero 9 y

theorem and_bit9_eq_zero (x : Nat) : x &&& 0x200 = 0 ↔ x.testBit 9 = false :=
  and_two_pow_eq_zero 9 x

theorem and_bit8_eq_zero (x : Nat) : x &&& 0x100 = 0 ↔ x.testBit 8 = false :=
  and_two_pow_eq_zero 8 x

/-- The test `0x200 & ~ch` of the fake keyboard succeeds exactly when bit 9 of
the word read is clear. -/
theorem fake_test_iff (x : Nat) :
    0x200 &&& not32 (x % 2 ^ 64 % 2 ^ 32) ≠ 0 ↔ x &&& 0x200 = 0 := by
  rw [bit9_and_ne_zero, and_bit9_eq_zero, testBit_not32, Nat.testBit_mod_two_pow,
    Nat.testBit_mod_two_pow]
  cases x.testBit 9 <;> simp

/-- The test `(1<<9) & ~key` of the scancode keyboard succeeds exactly when bit
9 of the word read is clear. -/
theorem kbd_test_iff (x : Nat) :
    (1 <<< 9) &&& not32 (x % 2 ^ 32) ≠ 0 ↔ x &&& 0x200 = 0 := by
  rw [show (1 <<< 9 : Nat) = 0x200 from rfl, bit9_and_ne_zero, and_bit9_eq_zero,
    testBit_not32, Nat.testBit_mod_two_pow]
  cases x.testBit 9 <;> simp

/-- Masking with `0x7f` keeps the word modulo 128. -/
theorem and_0x7f (x : Nat) : x &&& 0x7f = x % 128 :=
  Nat.and_pow_two_sub_one_eq_mod x 7

theorem mask7_of_u64 (x : Nat) : x % 2 ^ 64 &&& 0x7f = x &&& 0x7f := by
  rw [and_0x7f, and_0x7f]
  exact Nat.mod_mod_of_dvd x (by norm_num)

theorem and_0x7f_lt (x : Nat) : x &&& 0x7f < 128 := by
  rw [and_0x7f]; exact Nat.mod_lt _ (by norm_num)

/-! ## Traces -/

theorem keyEvents_append (a b : List Act) : keyEvents (a ++ b) = keyEvents a ++ keyEvents b := by
  induction a with
  | nil => rfl
  | cons x t ih => cases x <;> simp [keyEvents, ih]

theorem mmio_append (a b : List Act) : mmio (a ++ b) = mmio a ++ mmio b := by
  induction a with
  | nil => rfl
  | cons x t ih => cases x <;> simp [mmio, ih]

theorem writes_append (a b : List Act) : writes (a ++ b) = writes a ++ writes b := by
  induction a with
  | nil => rfl
  | cons x t ih => cases x <;> simp [writes, ih]

/-! ## The fake keyboard -/

namespace FakeKeys

/-- A poll that finds the empty flag clear pops the FIFO, reads the data word
and decodes its low seven bits. -/
theorem fake_poll_nonempty {σ : Type} (hw : Mmio σ) (s : σ) (h : hw.load s 0 &&& 0x200 = 0) :
    lowrisc_keys_poll hw s =
      (hw.store s 0x1000 0,
        [Act.read 0 (hw.load s 0 % 2 ^ 64), Act.write 0x1000 0,
          Act.read 0 (hw.load (hw.store s 0x1000 0) 0 % 2 ^ 64)]
          ++ decode_emit (hw.load (hw.store s 0x1000 0) 0 &&& 0x7f)) := by
  unfold lowrisc_keys_poll
  simp only [(fake_test_iff (hw.load s 0)).2 h, if_true, mask7_of_u64, not_false_eq_true, ne_eq]

/-- A poll that finds the empty flag set only reads. -/
theorem fake_poll_empty {σ : Type} (hw : Mmio σ) (s : σ) (h : hw.load s 0 &&& 0x200 ≠ 0) :
    lowrisc_keys_poll hw s = (s, [Act.read 0 (hw.load s 0 % 2 ^ 64)]) := by
  unfold lowrisc_keys_poll
  have : ¬ (0x200 &&& not32 (hw.load s 0 % 2 ^ 64 % 2 ^ 32) ≠ 0) := fun hc =>
    h ((fake_test_iff (hw.load s 0)).1 hc)
  simp only [this, if_false]

/-- The key events of the decode-and-emit part are those of the emitter
contract for the values of `ctrl`, `upper(ch)` and `c`. -/
theorem decode_emit_events :
    ∀ b < 128, keyEvents (decode_emit b) = Spec.emit ⟨ctrl b, shift b, primary b⟩ := by
  decide

/-- Every masked character gives one of three shapes of key events: a bare tap,
a tap inside control, or a tap inside shift.  Control and shift never occur
together, since a control character is remapped to a lowercase letter. -/
theorem decode_emit_shape :
    ∀ b < 128,
      (ctrl b = false ∧ shift b = false ∧
          keyEvents (decode_emit b) = [press (primary b), release (primary b)])
      ∨ (ctrl b = true ∧ shift b = false ∧
          keyEvents (decode_emit b)
            = [press lctrl, press (primary b), release (primary b), release lctrl])
      ∨ (ctrl b = false ∧ shift b = true ∧
          keyEvents (decode_emit b)
            = [press lshift, press (primary b), release (primary b), release lshift]) := by
  decide

/-- The key events of a whole non-empty poll are those of its decode part. -/
theorem poll_events {σ : Type} (hw : Mmio σ) (s : σ) (h : hw.load s 0 &&& 0x200 = 0) :
    keyEvents (lowrisc_keys_poll hw s).2
      = keyEvents (decode_emit (hw.load (hw.store s 0x1000 0) 0 &&& 0x7f)) := by
  rw [fake_poll_nonempty hw s h]
  simp [keyEvents]

/-- C1.  On a poll of the fake keyboard that finds the FIFO non-empty, the key
events reported for the data word are exactly: press(CTRL) if the control
modifier is set, press(SHIFT) if the shift modifier is set, press(code),
release(code), release(CTRL) if control is set, release(SHIFT) if shift is set,
in this order.  The modifiers and the code are the values the routine computes
from the data word masked to seven bits. -/
theorem fake_poll_emits_contract_sequence {σ : Type} (hw : Mmio σ) (s : σ)
    (h : hw.load s 0 &&& 0x200 = 0) :
    keyEvents (lowrisc_keys_poll hw s).2
      = Spec.emit
          ⟨ctrl (hw.load (hw.store s 0x1000 0) 0 &&& 0x7f),
           shift (hw.load (hw.store s 0x1000 0) 0 &&& 0x7f),
           primary (hw.load (hw.store s 0x1000 0) 0 &&& 0x7f)⟩ := by
  rw [poll_events hw s h]
  exact decode_emit_events _ (and_0x7f_lt _)

/-- C1, at the byte 0x41: the device answers the probe with 0 (data pending)
and the data read with 0x41; the events are press(0x2a), press(0x1e),
release(0x1e), release(0x2a). -/
theorem fake_poll_emits_contract_sequence_witness :
    (replay.load [0, 0x41] 0 &&& 0x200 = 0)
      ∧ keyEvents (lowrisc_keys_poll replay [0, 0x41]).2
          = [press 0x2a, press 0x1e, release 0x1e, release 0x2a] :=
  ⟨by decide, (fake_poll_emits_contract_sequence replay [0, 0x41] (by decide)).trans (by decide)⟩

/-- The decode part for a control character and for its lowercase letter. -/
theorem decode_emit_control :
    ∀ b < 128, 1 ≤ b ∧ b ≤ 26 →
      ctrl b = true ∧ ctrl (b + 0x60) = false ∧ shift (b + 0x60) = false
        ∧ primary (b + 0x60) = primary b
        ∧ keyEvents (decode_emit (b + 0x60)) = [press (primary b), release (primary b)]
        ∧ keyEvents (decode_emit b)
            = [press lctrl, press (primary b), release (primary b), release lctrl] := by
  decide

/-- C2.  Take a non-empty poll whose data word, masked to seven bits, is a
control character `b` in 1..26, and any non-empty poll whose masked data word
is the lowercase letter `b + 0x60`.  Then the control modifier is set for `b`,
the letter on its own is reported as the bare tap press(c), release(c), and the
control character is reported as press(CTRL), press(c), release(c),
release(CTRL) with the same code `c`. -/
theorem fake_control_byte_uses_letter_code {σ τ : Type} (hw : Mmio σ) (s : σ)
    (hw2 : Mmio τ) (s2 : τ)
    (h : hw.load s 0 &&& 0x200 = 0) (h2 : hw2.load s2 0 &&& 0x200 = 0)
    (hb : 1 ≤ hw.load (hw.store s 0x1000 0) 0 &&& 0x7f
      ∧ hw.load (hw.store s 0x1000 0) 0 &&& 0x7f ≤ 26)
    (hl : hw2.load (hw2.store s2 0x1000 0) 0 &&& 0x7f
      = (hw.load (hw.store s 0x1000 0) 0 &&& 0x7f) + 0x60) :
    ctrl (hw.load (hw.store s 0x1000 0) 0 &&& 0x7f) = true
      ∧ ∃ c, keyEvents (lowrisc_keys_poll hw2 s2).2 = [press c, release c]
          ∧ keyEvents (lowrisc_keys_poll hw s).2
              = [press 0x1d, press c, release c, release 0x1d] := by
  have key := decode_emit_control _ (and_0x7f_lt (hw.load (hw.store s 0x1000 0) 0)) hb
  refine ⟨key.1, primary (hw.load (hw.store s 0x1000 0) 0 &&& 0x7f), ?_, ?_⟩
  · rw [poll_events hw2 s2 h2, hl]; exact key.2.2.2.2.1
  · rw [poll_events hw s h]; exact key.2.2.2.2.2

/-- C2, at the byte 0x03 and the letter c (0x63): control is set and both
polls use the code 0x2e. -/
theorem fake_control_byte_uses_letter_code_witness :
    ctrl (replay.load (replay.store [0, 0x03] 0x1000 0) 0 &&& 0x7f) = true
      ∧ ∃ c, keyEvents (lowrisc_keys_poll replay [0, 0x63]).2 = [press c, release c]
          ∧ keyEvents (lowrisc_keys_poll replay [0, 0x03]).2
              = [press 0x1d, press c, release c, release 0x1d] :=
  fake_control_byte_uses_letter_code replay [0, 0x03] replay [0, 0x63]
    (by decide) (by decide) (by decide) (by decide)

/-- The shift test of the routine, taken on the remapped character, agrees
with the rule of the specification on the original character. -/
theorem shift_rule :
    ∀ o < 128,
      upper (remapped o) = upper o
        ∧ (shift o = true ↔ Spec.shifted o)
        ∧ (press lshift ∈ keyEvents (decode_emit o) ↔ Spec.shifted o)
        ∧ (Spec.isLowerLetter o ∨ Spec.isDigit o ∨ o ∈ Spec.unshiftedSymbols →
            shift o = false) := by
  decide

/-- C3.  On a non-empty poll of the fake keyboard, let `o` be the data word
masked to seven bits, the original character.  The shift test of the routine,
`upper` applied to the character after the control remapping, gives the same
as `upper` on `o`; the shift modifier is set, and press(SHIFT) is reported, if
and only if `o` is an uppercase letter or one of the 21 shifted symbols; it is
clear for every lowercase letter, digit and unshifted punctuation character. -/
theorem fake_shift_iff_original_shifted {σ : Type} (hw : Mmio σ) (s : σ)
    (h : hw.load s 0 &&& 0x200 = 0) :
    upper (remapped (hw.load (hw.store s 0x1000 0) 0 &&& 0x7f))
        = upper (hw.load (hw.store s 0x1000 0) 0 &&& 0x7f)
      ∧ (shift (hw.load (hw.store s 0x1000 0) 0 &&& 0x7f) = true
          ↔ Spec.shifted (hw.load (hw.store s 0x1000 0) 0 &&& 0x7f))
      ∧ (press lshift ∈ keyEvents (lowrisc_keys_poll hw s).2
          ↔ Spec.shifted (hw.load (hw.store s 0x1000 0) 0 &&& 0x7f))
      ∧ (Spec.isLowerLetter (hw.load (hw.store s 0x1000 0) 0 &&& 0x7f)
          ∨ Spec.isDigit (hw.load (hw.store s 0x1000 0) 0 &&& 0x7f)
          ∨ (hw.load (hw.store s 0x1000 0) 0 &&& 0x7f) ∈ Spec.unshiftedSymbols →
            shift (hw.load (hw.store s 0x1000 0) 0 &&& 0x7f) = false)
      ∧ Spec.shiftedSymbols.length = 21 := by
  have hlt := and_0x7f_lt (hw.load (hw.store s 0x1000 0) 0)
  have key := shift_rule _ hlt
  refine ⟨key.1, key.2.1, ?_, key.2.2.2, rfl⟩
  rw [poll_events hw s h]
  exact key.2.2.1

/-- C3, at the byte 0x41 (the letter A): the shift modifier is set and
press(SHIFT) is among the reported events. -/
theorem fake_shift_iff_original_shifted_witness :
    (replay.load [0, 0x41] 0 &&& 0x200 = 0)
      ∧ shift (replay.load (replay.store [0, 0x41] 0x1000 0) 0 &&& 0x7f) = true
      ∧ press lshift ∈ keyEvents (lowrisc_keys_poll replay [0, 0x41]).2 :=
  ⟨by decide,
    (fake_shift_iff_original_shifted replay [0, 0x41] (by decide)).2.1.2 (by decide),
    (fake_shift_iff_original_shifted replay [0, 0x41] (by decide)).2.2.1.2 (by decide)⟩

/-- C4.  On a non-empty poll of the fake keyboard the reported key events have
even length; the event at position `i` of the first half is the press of some
key `k` and the event at position `i` from the end is the release of the same
`k`; and the sequence is a list of modifier presses, then press and release of
the primary code, then the releases of the modifiers in reverse order. -/
theorem fake_events_bracket_symmetric {σ : Type} (hw : Mmio σ) (s : σ)
    (h : hw.load s 0 &&& 0x200 = 0) :
    (keyEvents (lowrisc_keys_poll hw s).2).length % 2 = 0
      ∧ (∀ i, i < (keyEvents (lowrisc_keys_poll hw s).2).length / 2 →
          ∃ k, (keyEvents (lowrisc_keys_poll hw s).2)[i]? = some (press k)
            ∧ (keyEvents (lowrisc_keys_poll hw s).2)[
                (keyEvents (lowrisc_keys_poll hw s).2).length - 1 - i]? = some (release k))
      ∧ ∃ mods : List Nat,
          keyEvents (lowrisc_keys_poll hw s).2
            = mods.map press
                ++ [press (primary (hw.load (hw.store s 0x1000 0) 0 &&& 0x7f)),
                    release (primary (hw.load (hw.store s 0x1000 0) 0 &&& 0x7f))]
                ++ mods.reverse.map release := by
  rw [poll_events hw s h]
  rcases decode_emit_shape _ (and_0x7f_lt (hw.load (hw.store s 0x1000 0) 0)) with
    ⟨-, -, he⟩ | ⟨-, -, he⟩ | ⟨-, -, he⟩
  · rw [he]
    refine ⟨by simp, ?_, [], by rfl⟩
    intro i hi
    have hi0 : i = 0 := by simpa using hi
    subst hi0
    exact ⟨_, rfl, rfl⟩
  · rw [he]
    refine ⟨by simp, ?_, [lctrl], by rfl⟩
    intro i hi
    have hi2 : i < 2 := by simpa using hi
    interval_cases i
    · exact ⟨_, rfl, rfl⟩
    · exact ⟨_, rfl, rfl⟩
  · rw [he]
    refine ⟨by simp, ?_, [lshift], by rfl⟩
    intro i hi
    have hi2 : i < 2 := by simpa using hi
    interval_cases i
    · exact ⟨_, rfl, rfl⟩
    · exact ⟨_, rfl, rfl⟩

/-- C4, at the byte 0x03: the four events press(CTRL), press(0x2e),
release(0x2e), release(CTRL) mirror each other. -/
theorem fake_events_bracket_symmetric_witness :
    (replay.load [0, 0x03] 0 &&& 0x200 = 0)
      ∧ (keyEvents (lowrisc_keys_poll replay [0, 0x03]).2).length % 2 = 0
      ∧ ∃ mods : List Nat,
          keyEvents (lowrisc_keys_poll replay [0, 0x03]).2
            = mods.map press ++ [press 0x2e, release 0x2e] ++ mods.reverse.map release :=
  ⟨by decide,
    (fake_events_bracket_symmetric replay [0, 0x03] (by decide)).1,
    (fake_events_bracket_symmetric replay [0, 0x03] (by decide)).2.2⟩

/-- The decode part touches no register. -/
theorem decode_emit_no_mmio : ∀ b < 128, mmio (decode_emit b) = [] := by
  decide

/-- The decode part of a character that reaches `default:`. -/
theorem decode_emit_default :
    ∀ b < 128, keycode (remapped b) = none →
      decode_emit b = [Act.printk b, Act.key 0 true, Act.key 0 false, Act.sync] := by
  decide

/-- Repeated polls of a device whose empty flag is set leave it as it is; each
of them only reads. -/
theorem fake_polls_empty {σ : Type} (hw : Mmio σ) (s : σ) (h : hw.load s 0 &&& 0x200 ≠ 0)
    (n : Nat) :
    polls hw n s = (s, List.replicate n (Act.read 0 (hw.load s 0 % 2 ^ 64))) := by
  induction n with
  | zero => rfl
  | succ n ih =>
    simp only [polls, fake_poll_empty hw s h, ih]
    rfl

end FakeKeys

/-! ## The scancode keyboard -/

namespace Kbd

/-- A poll that finds the empty flag set only reads. -/
theorem kbd_poll_empty {σ : Type} (tbl : List ScanEntry) (hw : Mmio σ) (s : σ)
    (h : hw.load s 0 &&& 0x200 ≠ 0) :
    lowrisc_keys_poll tbl hw s = (s, [Act.read 0 (hw.load s 0 % 2 ^ 32)]) := by
  unfold lowrisc_keys_poll
  have : ¬ ((1 <<< 9) &&& not32 (hw.load s 0 % 2 ^ 32) ≠ 0) := fun hc =>
    h ((kbd_test_iff (hw.load s 0)).1 hc)
  simp only [this, if_false]

/-- Bit `i` of the array index: the bit of the data word, except that bits 8
and 9 and everything above bit 31 are cleared. -/
theorem testBit_index (w i : Nat) :
    (index w).testBit i = (w.testBit i && decide (i < 32 ∧ i ≠ 8 ∧ i ≠ 9)) := by
  unfold index
  rw [Nat.testBit_and, Nat.testBit_and, testBit_not32, testBit_not32,
    Nat.testBit_mod_two_pow, show (0x200 : Nat) = 2 ^ 9 from rfl,
    show (0x100 : Nat) = 2 ^ 8 from rfl, Nat.testBit_two_pow, Nat.testBit_two_pow]
  cases w.testBit i
  · simp
  · by_cases h32 : i < 32 <;> by_cases h8 : i = 8 <;> by_cases h9 : i = 9 <;>
      simp [h32, h8, h9, eq_comm]

/-- The direction test `key & 0x100` looks at bit 8 of the data word. -/
theorem key_bit8 (w : Nat) :
    (w % 2 ^ 32 &&& not32 0x200) &&& 0x100 = 0 ↔ w &&& 0x100 = 0 := by
  rw [and_bit8_eq_zero, and_bit8_eq_zero, Nat.testBit_and, testBit_not32,
    Nat.testBit_mod_two_pow]
  cases w.testBit 8 <;> decide

/-- A poll that finds the empty flag clear and whose index is past the end of
the table: the trace stops at the out-of-bounds load. -/
theorem kbd_poll_nonempty_none {σ : Type} (tbl : List ScanEntry) (hw : Mmio σ) (s : σ)
    (h : hw.load s 0 &&& 0x200 = 0)
    (hr : tbl[index (hw.load (hw.store s 0 0) 0)]? = none) :
    lowrisc_keys_poll tbl hw s =
      (hw.store s 0 0,
        [Act.read 0 (hw.load s 0 % 2 ^ 32), Act.write 0 0,
          Act.read 0 (hw.load (hw.store s 0 0) 0 % 2 ^ 32),
          Act.oob (index (hw.load (hw.store s 0 0) 0))]) := by
  unfold lowrisc_keys_poll
  unfold index at hr ⊢
  simp only [(kbd_test_iff (hw.load s 0)).2 h, if_true, hr, ne_eq, not_false_eq_true]
  rfl

/-- A poll that finds the empty flag clear and whose index hits the entry
`e`. -/
theorem kbd_poll_nonempty_some {σ : Type} (tbl : List ScanEntry) (hw : Mmio σ) (s : σ)
    (e : ScanEntry) (h : hw.load s 0 &&& 0x200 = 0)
    (hr : tbl[index (hw.load (hw.store s 0 0) 0)]? = some e) :
    lowrisc_keys_poll tbl hw s =
      (hw.store s 0 0,
        [Act.read 0 (hw.load s 0 % 2 ^ 32), Act.write 0 0,
          Act.read 0 (hw.load (hw.store s 0 0) 0 % 2 ^ 32)]
          ++ (if e.scan % 256 ≠ 0x3A then
                [Act.key (e.scan % 256) (decide (hw.load (hw.store s 0 0) 0 &&& 0x100 = 0)),
                  Act.sync]
              else [])
          ++ [Act.pr_debug e.lwr]) := by
  unfold lowrisc_keys_poll
  unfold index at hr
  simp only [(kbd_test_iff (hw.load s 0)).2 h, if_true, hr, ne_eq, not_false_eq_true,
    key_bit8]
  by_cases h8 : hw.load (hw.store s 0 0) 0 &&& 0x100 = 0
  · simp only [h8, not_true_eq_false, if_false, decide_True, one_ne_zero, not_false_eq_true]
  · simp only [h8, not_false_eq_true, if_true, decide_False, not_true_eq_false]

/-- Repeated polls of a device whose empty flag is set leave it as it is; each
of them only reads. -/
theorem kbd_polls_empty {σ : Type} (tbl : List ScanEntry) (hw : Mmio σ) (s : σ)
    (h : hw.load s 0 &&& 0x200 ≠ 0) (n : Nat) :
    polls tbl hw n s = (s, List.replicate n (Act.read 0 (hw.load s 0 % 2 ^ 32))) := by
  induction n with
  | zero => rfl
  | succ n ih =>
    simp only [polls, kbd_poll_empty tbl hw s h, ih]
    rfl

end Kbd

theorem keyEvents_replicate_read (n a v : Nat) :
    keyEvents (List.replicate n (Act.read a v)) = [] := by
  induction n with
  | zero => rfl
  | succ n ih => simpa [List.replicate_succ, keyEvents] using ih

theorem writes_replicate_read (n a v : Nat) :
    writes (List.replicate n (Act.read a v)) = [] := by
  induction n with
  | zero => rfl
  | succ n ih => simpa [List.replicate_succ, writes] using ih

/-! ## Polling an empty FIFO -/

/-- C5.  When the word read at the start of a poll has the empty bit (0x200)
set, a poll of the scancode keyboard (for any table) and a poll of the fake
keyboard each report no key event, perform no register write and leave the
device state as it was; the same holds for any number `n` of polls in a row.
The device state changes by stores only. -/
theorem empty_fifo_poll_is_silent {σ : Type} (tbl : List Kbd.ScanEntry) (hw : Mmio σ) (s : σ)
    (h : hw.load s 0 &&& 0x200 ≠ 0) (n : Nat) :
    (keyEvents (Kbd.lowrisc_keys_poll tbl hw s).2 = []
        ∧ writes (Kbd.lowrisc_keys_poll tbl hw s).2 = []
        ∧ (Kbd.lowrisc_keys_poll tbl hw s).1 = s)
      ∧ (keyEvents (FakeKeys.lowrisc_keys_poll hw s).2 = []
        ∧ writes (FakeKeys.lowrisc_keys_poll hw s).2 = []
        ∧ (FakeKeys.lowrisc_keys_poll hw s).1 = s)
      ∧ (keyEvents (Kbd.polls tbl hw n s).2 = []
        ∧ writes (Kbd.polls tbl hw n s).2 = []
        ∧ (Kbd.polls tbl hw n s).1 = s)
      ∧ (keyEvents (FakeKeys.polls hw n s).2 = []
        ∧ writes (FakeKeys.polls hw n s).2 = []
        ∧ (FakeKeys.polls hw n s).1 = s) := by
  rw [Kbd.kbd_poll_empty tbl hw s h, FakeKeys.fake_poll_empty hw s h, Kbd.kbd_polls_empty tbl hw s h n,
    FakeKeys.fake_polls_empty hw s h n]
  simp only [keyEvents_replicate_read, writes_replicate_read]
  simp [keyEvents, writes]

/-- C5, on a device that keeps answering with the empty flag: five polls in a
row of either driver report nothing, write nothing and leave the device as it
was. -/
theorem empty_fifo_poll_is_silent_witness :
    (replay.load [0x200] 0 &&& 0x200 ≠ 0)
      ∧ (keyEvents (Kbd.polls [] replay 5 [0x200]).2 = []
        ∧ writes (Kbd.polls [] replay 5 [0x200]).2 = []
        ∧ (Kbd.polls [] replay 5 [0x200]).1 = [0x200])
      ∧ (keyEvents (FakeKeys.polls replay 5 [0x200]).2 = []
        ∧ writes (FakeKeys.polls replay 5 [0x200]).2 = []
        ∧ (FakeKeys.polls replay 5 [0x200]).1 = [0x200]) :=
  ⟨by decide, (empty_fifo_poll_is_silent [] replay [0x200] (by decide) 5).2.2⟩

/-! ## The register protocol of a non-empty poll -/

/-- C6 as stated fails on the fake keyboard.  With the probe answered by 0 and
the data read by 0x41, its register accesses are a read of offset 0, a write to
offset 0x1000 and a read of offset 0: the write does not go to the address that
was read. -/
theorem fake_pop_write_is_not_to_the_register_read :
    (replay.load [0, 0x41] 0 &&& 0x200 = 0)
      ∧ mmio (FakeKeys.lowrisc_keys_poll replay [0, 0x41]).2
          = [Act.read 0 0, Act.write 0x1000 0, Act.read 0 0x41]
      ∧ ¬ ∃ a v x y, mmio (FakeKeys.lowrisc_keys_poll replay [0, 0x41]).2
          = [Act.read a x, Act.write a v, Act.read a y] := by
  have hm : mmio (FakeKeys.lowrisc_keys_poll replay [0, 0x41]).2
      = [Act.read 0 0, Act.write 0x1000 0, Act.read 0 0x41] := by decide
  refine ⟨by decide, hm, ?_⟩
  rintro ⟨a, v, x, y, hc⟩
  rw [hm] at hc
  simp only [List.cons.injEq, Act.read.injEq, Act.write.injEq] at hc
  omega

/-- C6, amended.  When the word read at the start of a poll has the empty bit
(0x200) clear, the register accesses of the poll are, in this order and with
nothing else: on the scancode keyboard a read of offset 0, a write of 0 to
offset 0 and a second read of offset 0; on the fake keyboard a read of offset
0, a write of 0 to offset 0x1000 (element 0x200 of the 64-bit register array)
and a second read of offset 0.  The single write lies between the two reads,
the device is left in the state after that one store, and on the fake keyboard
the rest of the trace is the decoding of the second word read. -/
theorem nonempty_poll_register_sequence {σ : Type} (tbl : List Kbd.ScanEntry) (hw : Mmio σ)
    (s : σ) (h : hw.load s 0 &&& 0x200 = 0) :
    (mmio (Kbd.lowrisc_keys_poll tbl hw s).2
        = [Act.read 0 (hw.load s 0 % 2 ^ 32), Act.write 0 0,
            Act.read 0 (hw.load (hw.store s 0 0) 0 % 2 ^ 32)]
      ∧ (Kbd.lowrisc_keys_poll tbl hw s).2.take 3
        = [Act.read 0 (hw.load s 0 % 2 ^ 32), Act.write 0 0,
            Act.read 0 (hw.load (hw.store s 0 0) 0 % 2 ^ 32)]
      ∧ (Kbd.lowrisc_keys_poll tbl hw s).1 = hw.store s 0 0)
    ∧ (mmio (FakeKeys.lowrisc_keys_poll hw s).2
        = [Act.read 0 (hw.load s 0 % 2 ^ 64), Act.write 0x1000 0,
            Act.read 0 (hw.load (hw.store s 0x1000 0) 0 % 2 ^ 64)]
      ∧ (FakeKeys.lowrisc_keys_poll hw s).2
        = [Act.read 0 (hw.load s 0 % 2 ^ 64), Act.write 0x1000 0,
            Act.read 0 (hw.load (hw.store s 0x1000 0) 0 % 2 ^ 64)]
          ++ FakeKeys.decode_emit (hw.load (hw.store s 0x1000 0) 0 % 2 ^ 64 &&& 0x7f)
      ∧ (FakeKeys.lowrisc_keys_poll hw s).1 = hw.store s 0x1000 0) := by
  constructor
  · cases hr : tbl[Kbd.index (hw.load (hw.store s 0 0) 0)]? with
    | none =>
      rw [Kbd.kbd_poll_nonempty_none tbl hw s h hr]
      exact ⟨rfl, rfl, rfl⟩
    | some e =>
      rw [Kbd.kbd_poll_nonempty_some tbl hw s e h hr]
      refine ⟨?_, rfl, rfl⟩
      by_cases hc : e.scan % 256 ≠ 0x3A
      · rw [if_pos hc]; rfl
      · rw [if_neg hc]; rfl
  · rw [FakeKeys.fake_poll_nonempty hw s h]
    refine ⟨?_, by rw [mask7_of_u64], rfl⟩
    rw [mmio_append, FakeKeys.decode_emit_no_mmio _ (and_0x7f_lt _)]
    rfl

/-- C6, amended, on concrete devices: the scancode keyboard with data word
0x1c and the fake keyboard with data word 0x41. -/
theorem nonempty_poll_register_sequence_witness :
    (replay.load [0, 0x1c] 0 &&& 0x200 = 0)
      ∧ mmio (Kbd.lowrisc_keys_poll Kbd.sample replay [0, 0x1c]).2
          = [Act.read 0 0, Act.write 0 0, Act.read 0 0x1c]
      ∧ (Kbd.lowrisc_keys_poll Kbd.sample replay [0, 0x1c]).1 = [0x1c]
      ∧ (replay.load [0, 0x41] 0 &&& 0x200 = 0)
      ∧ mmio (FakeKeys.lowrisc_keys_poll replay [0, 0x41]).2
          = [Act.read 0 0, Act.write 0x1000 0, Act.read 0 0x41] :=
  ⟨by decide,
    (nonempty_poll_register_sequence Kbd.sample replay [0, 0x1c] (by decide)).1.1,
    (nonempty_poll_register_sequence Kbd.sample replay [0, 0x1c] (by decide)).1.2.2,
    by decide,
    (nonempty_poll_register_sequence [] replay [0, 0x41] (by decide)).2.1⟩

/-! ## Scancode translation -/

set_option maxRecDepth 16384

theorem sample_at_0x58 : Kbd.sample[Kbd.index 0x58]? = some ⟨0x3a, 0x3f, 0x3f⟩ := by
  rfl

theorem sample_at_0x158 : Kbd.sample[Kbd.index 0x158]? = some ⟨0x3a, 0x3f, 0x3f⟩ := by
  rfl

theorem sample_at_0x1c : Kbd.sample[Kbd.index 0x1c]? = some ⟨0x1e, 0x61, 0x41⟩ := by
  rfl

/-- C7.  On a non-empty poll of the scancode keyboard, for any table, if the
entry the data word selects has standard code 0x3A (caps lock) then no key
event is reported, whatever the release bit 0x100 of the data word is: after
the three register accesses the routine only prints its debug trace. -/
theorem kbd_caps_lock_reports_nothing {σ : Type} (tbl : List Kbd.ScanEntry) (hw : Mmio σ)
    (s : σ) (e : Kbd.ScanEntry) (h : hw.load s 0 &&& 0x200 = 0)
    (hr : tbl[Kbd.index (hw.load (hw.store s 0 0) 0)]? = some e)
    (hc : e.scan % 256 = 0x3A) :
    keyEvents (Kbd.lowrisc_keys_poll tbl hw s).2 = []
      ∧ (Kbd.lowrisc_keys_poll tbl hw s).2
          = [Act.read 0 (hw.load s 0 % 2 ^ 32), Act.write 0 0,
              Act.read 0 (hw.load (hw.store s 0 0) 0 % 2 ^ 32), Act.pr_debug e.lwr] := by
  rw [Kbd.kbd_poll_nonempty_some tbl hw s e h hr, if_neg (not_not.mpr hc)]
  exact ⟨rfl, rfl⟩

/-- C7, on the sample table: the caps-lock raw code 0x58 reports nothing as a
press (data word 0x58) and nothing as a release (data word 0x158). -/
theorem kbd_caps_lock_reports_nothing_witness :
    (replay.load [0, 0x58] 0 &&& 0x200 = 0 ∧ 0x58 &&& 0x100 = 0
        ∧ keyEvents (Kbd.lowrisc_keys_poll Kbd.sample replay [0, 0x58]).2 = [])
      ∧ (replay.load [0, 0x158] 0 &&& 0x200 = 0 ∧ 0x158 &&& 0x100 ≠ 0
        ∧ keyEvents (Kbd.lowrisc_keys_poll Kbd.sample replay [0, 0x158]).2 = []) :=
  ⟨⟨by decide, by decide,
      (kbd_caps_lock_reports_nothing Kbd.sample replay [0, 0x58] _ (by decide)
        sample_at_0x58 (by decide)).1⟩,
    ⟨by decide, by decide,
      (kbd_caps_lock_reports_nothing Kbd.sample replay [0, 0x158] _ (by decide)
        sample_at_0x158 (by decide)).1⟩⟩

/-- C8.  On a non-empty poll of the scancode keyboard, for any table, if the
entry the data word `w` selects has a standard code `c` other than 0x3A then
exactly one key event is reported: press(c) when bit 8 (0x100) of `w` is clear,
release(c) when it is set.  The index is `w` with bits 8 and 9 (and everything
above bit 31) cleared, so flipping bit 8 of the data word does not change the
entry selected. -/
theorem kbd_one_directional_event {σ : Type} (tbl : List Kbd.ScanEntry) (hw : Mmio σ)
    (s : σ) (e : Kbd.ScanEntry) (h : hw.load s 0 &&& 0x200 = 0)
    (hr : tbl[Kbd.index (hw.load (hw.store s 0 0) 0)]? = some e)
    (hc : e.scan % 256 ≠ 0x3A) :
    keyEvents (Kbd.lowrisc_keys_poll tbl hw s).2
        = [if hw.load (hw.store s 0 0) 0 &&& 0x100 = 0 then press (e.scan % 256)
            else release (e.scan % 256)]
      ∧ (∀ i, (Kbd.index (hw.load (hw.store s 0 0) 0)).testBit i
          = ((hw.load (hw.store s 0 0) 0).testBit i && decide (i < 32 ∧ i ≠ 8 ∧ i ≠ 9)))
      ∧ Kbd.index (hw.load (hw.store s 0 0) 0 ^^^ 0x100)
          = Kbd.index (hw.load (hw.store s 0 0) 0) := by
  refine ⟨?_, Kbd.testBit_index _, ?_⟩
  · rw [Kbd.kbd_poll_nonempty_some tbl hw s e h hr, if_pos hc]
    by_cases h8 : hw.load (hw.store s 0 0) 0 &&& 0x100 = 0
    · simp [h8, keyEvents, press]
    · simp [h8, keyEvents, release]
  · apply Nat.eq_of_testBit_eq
    intro i
    rw [Kbd.testBit_index, Kbd.testBit_index, Nat.testBit_xor,
      show (0x100 : Nat) = 2 ^ 8 from rfl, Nat.testBit_two_pow]
    by_cases h8 : i = 8
    · simp [h8]
    · have : ¬ (8 = i) := fun hc => h8 hc.symm
      simp [this]

/-- C8, on the sample table: the data word 0x1c, whose entry has standard code
0x1E and whose bit 8 is clear, gives the single event press(0x1E). -/
theorem kbd_one_directional_event_witness :
    (replay.load [0, 0x1c] 0 &&& 0x200 = 0)
      ∧ keyEvents (Kbd.lowrisc_keys_poll Kbd.sample replay [0, 0x1c]).2 = [press 0x1E] :=
  ⟨by decide,
    (kbd_one_directional_event Kbd.sample replay [0, 0x1c] _ (by decide)
      sample_at_0x1c (by decide)).1⟩

/-- C9 as stated fails.  On the sample table, which has an entry for every
8-bit raw code, the data word 0x400 has bits 8 and 9 clear and selects index
0x400, past the end of the table: the routine makes no range check and loads
from the array out of bounds. -/
theorem kbd_index_past_table_is_loaded :
    (replay.load [0, 0x400] 0 &&& 0x200 = 0)
      ∧ Kbd.sample.length ≤ Kbd.index 0x400
      ∧ (Kbd.lowrisc_keys_poll Kbd.sample replay [0, 0x400]).2
          = [Act.read 0 0, Act.write 0 0, Act.read 0 0x400, Act.oob 0x400] := by
  refine ⟨by decide, by decide, ?_⟩
  rfl

/-- C9, amended.  On a non-empty poll of the scancode keyboard, for any table,
if the raw code of the data word (the word with bits 8 and 9 cleared) is a
valid index of the table, then the table is loaded at exactly that index and
nowhere out of bounds, and the entry found there decides the rest of the poll:
one key event unless its code is 0x3A, then the debug trace. -/
theorem kbd_in_range_lookup_in_bounds {σ : Type} (tbl : List Kbd.ScanEntry) (hw : Mmio σ)
    (s : σ) (h : hw.load s 0 &&& 0x200 = 0)
    (hr : Kbd.index (hw.load (hw.store s 0 0) 0) < tbl.length) :
    (∀ i, Act.oob i ∉ (Kbd.lowrisc_keys_poll tbl hw s).2)
      ∧ ∃ e, tbl[Kbd.index (hw.load (hw.store s 0 0) 0)]? = some e
          ∧ (Kbd.lowrisc_keys_poll tbl hw s).2
              = [Act.read 0 (hw.load s 0 % 2 ^ 32), Act.write 0 0,
                  Act.read 0 (hw.load (hw.store s 0 0) 0 % 2 ^ 32)]
                ++ (if e.scan % 256 ≠ 0x3A then
                      [Act.key (e.scan % 256)
                          (decide (hw.load (hw.store s 0 0) 0 &&& 0x100 = 0)),
                        Act.sync]
                    else [])
                ++ [Act.pr_debug e.lwr] := by
  have hsome : tbl[Kbd.index (hw.load (hw.store s 0 0) 0)]?
      = some (tbl.get ⟨Kbd.index (hw.load (hw.store s 0 0) 0), hr⟩) :=
    List.getElem?_eq_getElem hr
  have hp := congrArg Prod.snd (Kbd.kbd_poll_nonempty_some tbl hw s _ h hsome)
  refine ⟨?_, _, hsome, hp⟩
  intro i
  rw [hp]
  by_cases hc : (tbl.get ⟨Kbd.index (hw.load (hw.store s 0 0) 0), hr⟩).scan % 256 ≠ 0x3A
  · rw [if_pos hc]; simp
  · rw [if_neg hc]; simp

/-- C9, amended, on the sample table at the data word 0x1c. -/
theorem kbd_in_range_lookup_in_bounds_witness :
    (replay.load [0, 0x1c] 0 &&& 0x200 = 0)
      ∧ Kbd.index 0x1c < Kbd.sample.length
      ∧ ∀ i, Act.oob i ∉ (Kbd.lowrisc_keys_poll Kbd.sample replay [0, 0x1c]).2 :=
  ⟨by decide, by decide,
    (kbd_in_range_lookup_in_bounds Kbd.sample replay [0, 0x1c] (by decide) (by decide)).1⟩

/-! ## Characters without a key code -/

/-- C10 as stated fails.  The byte 0 has no `case` label, and the poll that
receives it reports press and release of code 0 after its diagnostic trace. -/
theorem fake_unmapped_byte_reports_code_zero :
    (replay.load [0, 0] 0 &&& 0x200 = 0)
      ∧ FakeKeys.keycode (FakeKeys.remapped (0 &&& 0x7f)) = none
      ∧ keyEvents (FakeKeys.lowrisc_keys_poll replay [0, 0]).2 = [press 0, release 0] := by
  decide

/-- C10, amended.  On a non-empty poll of the fake keyboard whose character
(the data word masked to seven bits, after the control remapping) has no
`case` label, the routine prints its diagnostic trace once, then reports
press(0) and release(0) of key code 0 and no modifier event, and ends with the
sync: the byte is traced and reported as code 0 instead of being dropped. -/
theorem fake_unmapped_byte_traced_and_reported_as_zero {σ : Type} (hw : Mmio σ) (s : σ)
    (h : hw.load s 0 &&& 0x200 = 0)
    (hd : FakeKeys.keycode (FakeKeys.remapped (hw.load (hw.store s 0x1000 0) 0 &&& 0x7f))
      = none) :
    (FakeKeys.lowrisc_keys_poll hw s).2
        = [Act.read 0 (hw.load s 0 % 2 ^ 64), Act.write 0x1000 0,
            Act.read 0 (hw.load (hw.store s 0x1000 0) 0 % 2 ^ 64),
            Act.printk (hw.load (hw.store s 0x1000 0) 0 &&& 0x7f),
            Act.key 0 true, Act.key 0 false, Act.sync]
      ∧ keyEvents (FakeKeys.lowrisc_keys_poll hw s).2 = [press 0, release 0] := by
  rw [FakeKeys.fake_poll_nonempty hw s h, FakeKeys.decode_emit_default _ (and_0x7f_lt _) hd]
  exact ⟨rfl, rfl⟩

/-- C10, amended, at the byte 0x1c (a control code outside 1..26 with no
`case` label). -/
theorem fake_unmapped_byte_traced_and_reported_as_zero_witness :
    (replay.load [0, 0x1c] 0 &&& 0x200 = 0)
      ∧ FakeKeys.keycode (FakeKeys.remapped (0x1c &&& 0x7f)) = none
      ∧ keyEvents (FakeKeys.lowrisc_keys_poll replay [0, 0x1c]).2 = [press 0, release 0] :=
  ⟨by decide, by decide,
    (fake_unmapped_byte_traced_and_reported_as_zero replay [0, 0x1c] (by decide)
      (by decide)).2⟩

/-! ## The text console -/

namespace Con

/-- Without overflow the index computed by `lowrisc_con_putc` is the linear
cell number `128*ypos + xpos`. -/
theorem putc_index (ypos xpos : Int) (hy : 0 ≤ ypos) (hx : 0 ≤ xpos)
    (h : 128 * ypos + xpos < 4096) :
    int32 (int32 (LOWRISC_COLUMNS * ypos) + xpos) = 128 * ypos + xpos := by
  unfold int32 LOWRISC_COLUMNS
  push_cast
  omega

/-- The move of `lowrisc_con_scroll` passes the range check of `mymove`. -/
theorem mymove_scroll (mem : Nat → Nat) :
    mymove mem 0 LOWRISC_COLUMNS (LOWRISC_MEM - LOWRISC_COLUMNS)
      = (memmove mem 0 128 3968, []) := by
  unfold mymove
  rw [if_neg (by decide)]
  rfl

/-- The clear of `lowrisc_con_scroll` passes the range check of `myset`. -/
theorem myset_scroll (mem : Nat → Nat) :
    myset mem (LOWRISC_MEM - LOWRISC_COLUMNS : Nat) 0 LOWRISC_COLUMNS
      = (memset mem 3968 0 128, []) := by
  unfold myset
  rw [if_neg (by decide)]
  rfl

/-- The whole of `lowrisc_con_scroll` in terms of the two library calls. -/
theorem scroll_eq (st : State) (top bottom : Nat) (dir : con_scroll) (lines : Nat) :
    lowrisc_con_scroll st top bottom dir lines
      = ({ mem := memset (memmove st.mem 0 128 3968) 3968 0 128,
           oldxpos := st.oldxpos, oldypos := int32 (st.oldypos - 1) }, [], true) := by
  unfold lowrisc_con_scroll
  simp only [mymove_scroll, myset_scroll, List.append_nil]

/-- C11 as stated fails.  On the all-zero text memory, the write of glyph 0x41
at row 0, column 128 (a column outside the grid) changes cell 128, and the
write at row 31, column 0 (a row outside the grid) changes cell 3968: the
routine stores without looking at the grid bounds. -/
theorem con_putc_outside_grid_still_stores :
    ((lowrisc_con_putc false blank 0x41 0 128).1.mem 128 = 0x41 ∧ blank.mem 128 = 0)
      ∧ ((lowrisc_con_putc false blank 0x41 31 0).1.mem 3968 = 0x41 ∧ blank.mem 3968 = 0)
      ∧ ¬ (∀ i, (lowrisc_con_putc false blank 0x41 0 128).1.mem i = blank.mem i) := by
  refine ⟨by decide, by decide, ?_⟩
  intro hall
  have h128 := hall 128
  revert h128
  decide

/-- C11, amended.  For every glyph `c` and every position with `ypos ≥ 0`,
`xpos ≥ 0` and `128*ypos + xpos < 4096`, whether or not it lies inside the
grid of 31 rows and 128 columns, `lowrisc_con_putc` stores the low 16 bits of
`c` to cell `128*ypos + xpos` and leaves every other cell as it was, and the
store is inside the text memory. -/
theorem con_putc_stores_at_linear_index (config_keyboard : Bool) (st : State)
    (c ypos xpos : Int) (hy : 0 ≤ ypos) (hx : 0 ≤ xpos) (h : 128 * ypos + xpos < 4096) :
    (∀ i, (lowrisc_con_putc config_keyboard st c ypos xpos).1.mem i
        = if i = (128 * ypos + xpos).toNat then (c % 65536).toNat else st.mem i)
      ∧ (∀ k, Event.oob k ∉ (lowrisc_con_putc config_keyboard st c ypos xpos).2) := by
  have hin : 0 ≤ 128 * ypos + xpos ∧ 128 * ypos + xpos < (LOWRISC_MEM : Int) := by
    unfold LOWRISC_MEM
    push_cast
    omega
  unfold lowrisc_con_putc
  simp only [putc_index ypos xpos hy hx h, hin, and_self, if_true]
  cases config_keyboard
  · simp
  · by_cases hxo : xpos = st.oldxpos
    · simp [hxo]
    · simp only [hxo, if_false, if_true]
      refine ⟨fun i => trivial, ?_⟩
      intro k
      split_ifs <;> simp

/-- C11, amended, at row 2, column 5 of the all-zero text memory: cell 261
receives the glyph and cell 260 stays zero. -/
theorem con_putc_stores_at_linear_index_witness :
    (0 : Int) ≤ 2 ∧ (0 : Int) ≤ 5 ∧ (128 * 2 + 5 : Int) < 4096
      ∧ (lowrisc_con_putc false blank 0x41 2 5).1.mem 261 = 0x41
      ∧ (lowrisc_con_putc false blank 0x41 2 5).1.mem 260 = 0 :=
  ⟨by decide, by decide, by decide,
    ((con_putc_stores_at_linear_index false blank 0x41 2 5 (by decide) (by decide)
      (by decide)).1 261).trans (by decide),
    ((con_putc_stores_at_linear_index false blank 0x41 2 5 (by decide) (by decide)
      (by decide)).1 260).trans (by decide)⟩

/-- A cell below the range of a `memset` keeps its value. -/
theorem memset_below (mem : Nat → Nat) (dest : Nat) (c : Int) (n i : Nat) (hi : i < dest) :
    memset mem dest c n i = mem i := by
  unfold memset
  have h1 : ¬ (2 * dest ≤ 2 * i ∧ 2 * i < 2 * dest + n) := by omega
  have h2 : ¬ (2 * dest ≤ 2 * i + 1 ∧ 2 * i + 1 < 2 * dest + n) := by omega
  simp only [h1, h2, decide_False, Bool.or_self, Bool.false_eq_true, if_false]

/-- A cell whose two bytes lie in the range of a `memset` with zero becomes
zero. -/
theorem memset_zero_inside (mem : Nat → Nat) (dest n i : Nat) (h1 : dest ≤ i)
    (h2 : 2 * i + 1 < 2 * dest + n) :
    memset mem dest 0 n i = 0 := by
  unfold memset
  have hlo : 2 * dest ≤ 2 * i ∧ 2 * i < 2 * dest + n := by omega
  have hhi : 2 * dest ≤ 2 * i + 1 ∧ 2 * i + 1 < 2 * dest + n := by omega
  simp [hlo, hhi]

/-- A cell past the bytes of a `memset` keeps its value. -/
theorem memset_above (mem : Nat → Nat) (dest : Nat) (c : Int) (n i : Nat)
    (hi : 2 * dest + n ≤ 2 * i) :
    memset mem dest c n i = mem i := by
  unfold memset
  have h1 : ¬ (2 * dest ≤ 2 * i ∧ 2 * i < 2 * dest + n) := by omega
  have h2 : ¬ (2 * dest ≤ 2 * i + 1 ∧ 2 * i + 1 < 2 * dest + n) := by omega
  simp only [h1, h2, decide_False, Bool.or_self, Bool.false_eq_true, if_false]

/-- C12 as stated fails.  On the text memory whose cell `i` holds `i + 1`, after
one scroll the cell at row 30, column 0 (cell 3840) holds 3969, the former
content of cell 3968 at row 31, column 0: row 30 is not cleared. -/
theorem con_scroll_row_30_not_cleared :
    (lowrisc_con_scroll numbered 0 31 con_scroll.SM_UP 1).1.mem (128 * 30 + 0) = 3969
      ∧ numbered.mem (128 * 31 + 0) = 3969
      ∧ (lowrisc_con_scroll numbered 0 31 con_scroll.SM_UP 1).1.mem (128 * 30 + 0) ≠ 0 := by
  decide

/-- C12, amended.  The text memory has 4096 cells, 32 rows of 128.  For every
content, after one `lowrisc_con_scroll` (whatever its arguments) every cell
(r, c) with r < 31 and c < 128 holds what cell (r+1, c) held before, so row 30
receives the former row 31; the cells cleared to zero are cells of row 31, the
last row of the memory, among them every cell (31, c) with c < 64; nothing is
traced as out of range and the routine returns true. -/
theorem con_scroll_moves_rows_up (st : State) (top bottom : Nat) (dir : con_scroll)
    (lines : Nat) (r c : Nat) (hr : r < 31) (hc : c < 128) :
    (lowrisc_con_scroll st top bottom dir lines).1.mem (128 * r + c)
        = st.mem (128 * (r + 1) + c)
      ∧ (c < 64 → (lowrisc_con_scroll st top bottom dir lines).1.mem (128 * 31 + c) = 0)
      ∧ (lowrisc_con_scroll st top bottom dir lines).2.1 = []
      ∧ (lowrisc_con_scroll st top bottom dir lines).2.2 = true := by
  rw [scroll_eq]
  refine ⟨?_, ?_, rfl, rfl⟩
  · show memset (memmove st.mem 0 128 3968) 3968 0 128 (128 * r + c) = _
    rw [memset_below _ _ _ _ _ (by omega)]
    unfold memmove
    have hin : 0 ≤ 128 * r + c ∧ 128 * r + c < 0 + 3968 := by omega
    rw [if_pos hin]
    congr 1
    omega
  · intro hc64
    show memset (memmove st.mem 0 128 3968) 3968 0 128 (128 * 31 + c) = 0
    exact memset_zero_inside _ _ _ _ (by omega) (by omega)

/-- C12, amended, on the text memory whose cell `i` holds `i + 1`: after one
scroll cell (0, 5) holds 134, the former content of cell (1, 5), and cell
(31, 5) is zero. -/
theorem con_scroll_moves_rows_up_witness :
    0 < 31 ∧ 5 < 128
      ∧ (lowrisc_con_scroll numbered 0 31 con_scroll.SM_UP 1).1.mem (128 * 0 + 5) = 134
      ∧ (lowrisc_con_scroll numbered 0 31 con_scroll.SM_UP 1).1.mem (128 * 31 + 5) = 0 :=
  ⟨by decide, by decide,
    (con_scroll_moves_rows_up numbered 0 31 con_scroll.SM_UP 1 0 5 (by decide)
      (by decide)).1.trans (by decide),
    (con_scroll_moves_rows_up numbered 0 31 con_scroll.SM_UP 1 0 5 (by decide)
      (by decide)).2.1 (by decide)⟩

end Con

/-! ## Tab and Enter on the fake keyboard -/

namespace FakeKeys

/-- No masked character reaches the `case` labels of tab and carriage return,
and no reported key event has the code 0x0f or 0x1c. -/
theorem decode_emit_no_tab_enter :
    ∀ b < 128,
      remapped b ≠ 0x09 ∧ remapped b ≠ 0x0d
        ∧ primary b ≠ 0x0f ∧ primary b ≠ 0x1c
        ∧ (∀ e ∈ keyEvents (decode_emit b), e.code ≠ 0x0f ∧ e.code ≠ 0x1c)
        ∧ (b = 0x09 → keyEvents (decode_emit b)
            = [press 0x1d, press 0x17, release 0x17, release 0x1d])
        ∧ (b = 0x0d → keyEvents (decode_emit b)
            = [press 0x1d, press 0x32, release 0x32, release 0x1d]) := by
  decide

/-- C13.  On a non-empty poll of the fake keyboard, with `b` the data word
masked to seven bits: the character looked up in the `switch` is never tab
(0x09) nor carriage return (0x0d), since both lie in the control range and are
remapped first, so the primary code is never 0x0f nor 0x1c and no reported key
event carries either code; the byte 0x09 is reported as press(CTRL),
press(0x17), release(0x17), release(CTRL) and the byte 0x0d as press(CTRL),
press(0x32), release(0x32), release(CTRL). -/
theorem fake_tab_and_enter_codes_never_emitted {σ : Type} (hw : Mmio σ) (s : σ)
    (h : hw.load s 0 &&& 0x200 = 0) :
    remapped (hw.load (hw.store s 0x1000 0) 0 &&& 0x7f) ≠ 0x09
      ∧ remapped (hw.load (hw.store s 0x1000 0) 0 &&& 0x7f) ≠ 0x0d
      ∧ primary (hw.load (hw.store s 0x1000 0) 0 &&& 0x7f) ≠ 0x0f
      ∧ primary (hw.load (hw.store s 0x1000 0) 0 &&& 0x7f) ≠ 0x1c
      ∧ (∀ e ∈ keyEvents (lowrisc_keys_poll hw s).2, e.code ≠ 0x0f ∧ e.code ≠ 0x1c)
      ∧ (hw.load (hw.store s 0x1000 0) 0 &&& 0x7f = 0x09 →
          keyEvents (lowrisc_keys_poll hw s).2
            = [press 0x1d, press 0x17, release 0x17, release 0x1d])
      ∧ (hw.load (hw.store s 0x1000 0) 0 &&& 0x7f = 0x0d →
          keyEvents (lowrisc_keys_poll hw s).2
            = [press 0x1d, press 0x32, release 0x32, release 0x1d]) := by
  rw [poll_events hw s h]
  exact decode_emit_no_tab_enter _ (and_0x7f_lt _)

/-- C13, at the bytes 0x09 and 0x0d: tab comes out as control with the key of
the letter i, carriage return as control with the key of the letter m. -/
theorem fake_tab_and_enter_codes_never_emitted_witness :
    (replay.load [0, 0x09] 0 &&& 0x200 = 0)
      ∧ keyEvents (lowrisc_keys_poll replay [0, 0x09]).2
          = [press 0x1d, press 0x17, release 0x17, release 0x1d]
      ∧ (replay.load [0, 0x0d] 0 &&& 0x200 = 0)
      ∧ keyEvents (lowrisc_keys_poll replay [0, 0x0d]).2
          = [press 0x1d, press 0x32, release 0x32, release 0x1d] :=
  ⟨by decide,
    (fake_tab_and_enter_codes_never_emitted replay [0, 0x09] (by decide)).2.2.2.2.2.1
      (by decide),
    by decide,
    (fake_tab_and_enter_codes_never_emitted replay [0, 0x0d] (by decide)).2.2.2.2.2.2
      (by decide)⟩

end FakeKeys

end LowRisc
